import Mathlib

/-!
Shallow embedding of the Ansible progress callback plugin
(src/ansible/callback_plugins/progress.py) and proofs about its
categorizer, name simplifier, and terminal output handlers.

Python strings are modelled as lists of unicode characters; Python's
str.lower is modelled on the ASCII range (every pattern and prefix in the
plugin's tables is ASCII).  Terminal output is modelled as a list of
explicit actions (writes and flushes), and a small terminal model gives
semantics to carriage returns and newlines.
-/

/-- Convert a Lean string literal to the list-of-characters representation
used throughout this development. -/
def str (s : String) : List Char := s.toList

/-- ASCII lowercasing of one character, modelling Python str.lower on the
ASCII range. -/
def lowerChar (c : Char) : Char :=
  if 65 ≤ c.toNat ∧ c.toNat ≤ 90 then Char.ofNat (c.toNat + 32) else c

/-- Lowercasing of a whole string, modelling Python str.lower. -/
def lowerStr (s : List Char) : List Char := s.map lowerChar

/-- Python's substring test needle in hay: some suffix of hay starts with
needle (the empty needle always matches). -/
def containsB : List Char → List Char → Bool
  | [], needle => needle.isEmpty
  | c :: t, needle => needle.isPrefixOf (c :: t) || containsB t needle

/-- The fixed category table from CallbackModule.__init__ (task_categories),
in declaration order. -/
def task_categories : List (List Char × List (List Char)) :=
  [ (str "System Configuration",
      [str "Set hostname", str "Update /etc/hosts", str "Generate en_US.UTF-8 locale",
       str "Set system locale", str "Set system timezone", str "Update apt cache",
       str "Install locale packages", str "Install base system packages"]),
    (str "Development Tools",
      [str "Install NVM", str "Install Node.js", str "Update npm", str "Enable corepack",
       str "Install pnpm", str "Install global npm packages",
       str "Install additional APT packages", str "Install Rust",
       str "Install cargo packages", str "Install pyenv"]),
    (str "Final Setup",
      [str "Change.*shell", str "Generate .zshrc", str "shell configuration",
       str "permissions"]) ]

/-- Python slice pattern[2:-2]: drop the first two and the last two
characters. -/
def slice2m2 (p : List Char) : List Char := ((p.drop 2).dropLast).dropLast

/-- The per-pattern test inside _categorize_task:
pattern.lower() in task_name.lower(), or else pattern starts and ends with
the two characters ".*" and pattern[2:-2].lower() is in task_name.lower(). -/
def codeMatch (p name : List Char) : Bool :=
  containsB (lowerStr name) (lowerStr p) ||
    ((str ".*").isPrefixOf p && (str ".*").isSuffixOf p &&
      containsB (lowerStr name) (lowerStr (slice2m2 p)))

/-- Ordered scan of a category table with a given per-pattern matcher:
return the first category owning a matching pattern. -/
def firstCategory (m : List Char → List Char → Bool) :
    List (List Char × List (List Char)) → List Char → Option (List Char)
  | [], _ => none
  | (cat, pats) :: rest, name =>
    if pats.any (fun p => m p name) then some cat else firstCategory m rest name

/-- Embedding of CallbackModule._categorize_task. -/
def categorize_task (name : List Char) : Option (List Char) :=
  firstCategory codeMatch task_categories name

/-- Following the spec's words (section 4.2): the same ordered scan where
every pattern matches purely by case-insensitive substring containment of
its text. -/
def specCategorize (name : List Char) : Option (List Char) :=
  firstCategory (fun p n => containsB (lowerStr n) (lowerStr p)) task_categories name

/-- Following the spec's words (section 3, WildcardContains): the inner,
marker-free text of a pattern, with every occurrence of the two-character
marker ".*" removed. -/
def stripMarkers : List Char → List Char
  | [] => []
  | '.' :: '*' :: rest => stripMarkers rest
  | c :: rest => c :: stripMarkers rest

/-- The ordered strip table from _simplify_task_name (the dict keys; every
value is the empty replacement). -/
def simplifications : List (List Char) :=
  [str "Install ", str "Set ", str "Update ", str "Enable ",
   str "Generate ", str "Download ", str "Change "]

/-- Stage 1 of _simplify_task_name: remove the first matching leading word
and stop (the for-loop breaks after one removal). -/
def stripOne : List (List Char) → List Char → List Char
  | [], name => name
  | p :: rest, name => if p.isPrefixOf name then name.drop p.length else stripOne rest name

/-- Embedding of CallbackModule._simplify_task_name. -/
def simplify_task_name (name : List Char) : List Char :=
  let s := stripOne simplifications name
  if containsB s (str "base system packages") then str "Base packages (25)"
  else if containsB s (str "global npm packages") then str "Global packages (5)"
  else if containsB s (str "additional APT packages") then str "Additional packages"
  else s

/-- One effect on the terminal stream: a write of a string, or a flush. -/
inductive Out
  | write (s : List Char)
  | flush
deriving DecidableEq

/-- Python's '.' * (w - len(name)): the count is computed over the integers
and a nonpositive count yields the empty string. -/
def dotFill (w : Nat) (s : List Char) : List Char :=
  List.replicate ((w : Int) - (s.length : Int)).toNat '.'

/-- Python truthiness of the optional current_task field: None and the
empty string are both falsy. -/
def truthy : Option (List Char) → Bool
  | none => false
  | some s => !s.isEmpty

/-- Output of v2_playbook_on_task_start once current_task has been set to
name: nothing for fact-gathering or empty names, nothing for categorized
names, and a flushed no-newline placeholder otherwise. -/
def taskStartOut (name : List Char) : List Out :=
  if (str "Gathering Facts").isPrefixOf name || name.isEmpty then []
  else
    match categorize_task name with
    | some _ => []
    | none => [Out.write (str "   ├─ " ++ name ++ str " "), Out.flush]

/-- Output of v2_runner_on_ok given the stored current_task and the changed
flag read from the result (the flag does not affect the glyph). -/
def runnerOkOut (current : Option (List Char)) (changed : Bool) : List Out :=
  match current with
  | none => []
  | some name =>
    if !name.isEmpty && !(str "Gathering Facts").isPrefixOf name then
      match categorize_task name with
      | some _ =>
        [Out.write (str "\r   │  ├─ " ++ simplify_task_name name ++ str " " ++
          dotFill 35 (simplify_task_name name) ++ str " ✓\n"), Out.flush]
      | none =>
        [Out.write (str "\r   ├─ " ++ name ++ str " " ++ dotFill 50 name ++ str " ✓\n"),
         Out.flush]
    else []

/-- Output of v2_runner_on_failed given the stored current_task, the
optional msg field of the result, and ignore_errors. -/
def runnerFailedOut (current : Option (List Char)) (msg : Option (List Char))
    (ignoreErrors : Bool) : List Out :=
  match current with
  | none => []
  | some name =>
    if !name.isEmpty && !ignoreErrors then
      [Out.write (str "\r   ├─ " ++ name ++ str " " ++ dotFill 50 name ++ str " ✗\n"),
       Out.write (str "   │  └─ Error: " ++ msg.getD (str "Unknown error") ++ str "\n"),
       Out.flush]
    else []

/-- The mutable fields of CallbackModule that the handlers read or write
(the counters initialised in __init__ are never touched afterwards). -/
structure RunState where
  current_task : Option (List Char)
  current_play : Option (List Char)
deriving DecidableEq

/-- The state right after __init__. -/
def initState : RunState := { current_task := none, current_play := none }

/-- One lifecycle event delivered by the engine, carrying the fields the
handlers consume. -/
inductive Event
  | playStart (name : List Char)
  | taskStart (name : List Char) (isConditional : Bool)
  | runnerOk (changed : Bool)
  | runnerFailed (msg : Option (List Char)) (ignoreErrors : Bool)
  | runnerSkipped
  | stats
  | display (msg : List Char)
deriving DecidableEq

/-- Dispatch of one event to its handler: the successor state and the
terminal output the handler produces. -/
def handle (s : RunState) : Event → RunState × List Out
  | Event.playStart n => ({ s with current_play := some n }, [])
  | Event.taskStart n _ => ({ s with current_task := some n }, taskStartOut n)
  | Event.runnerOk ch => (s, runnerOkOut s.current_task ch)
  | Event.runnerFailed m ig => (s, runnerFailedOut s.current_task m ig)
  | Event.runnerSkipped => (s, [])
  | Event.stats => (s, [])
  | Event.display _ => (s, [])

/-- State after a whole event sequence, starting from __init__. -/
def runEvents (evs : List Event) : RunState :=
  evs.foldl (fun s e => (handle s e).1) initState

/-- The name carried by the most recent task-start event of a sequence, if
any. -/
def lastTaskStartName : List Event → Option (List Char)
  | [] => none
  | e :: rest =>
    match lastTaskStartName rest with
    | some n => some n
    | none =>
      match e with
      | Event.taskStart n _ => some n
      | _ => none

/-- A simple terminal: finished lines, the characters to the left of the
cursor on the current line, and the characters at or to the right of the
cursor on the current line. -/
structure Term where
  done : List (List Char)
  left : List Char
  right : List Char
deriving DecidableEq

/-- Process one character: newline finishes the current line, carriage
return moves the cursor to column zero, any other character overwrites the
character under the cursor (or appends at end of line). -/
def procChar (t : Term) (c : Char) : Term :=
  if c = '\n' then { done := t.done ++ [t.left ++ t.right], left := [], right := [] }
  else if c = '\r' then { done := t.done, left := [], right := t.left ++ t.right }
  else { done := t.done, left := t.left ++ [c], right := t.right.drop 1 }

/-- Render a character stream on an initially empty terminal. -/
def render (s : List Char) : Term :=
  s.foldl procChar { done := [], left := [], right := [] }

/-- All characters written by a list of output actions, in order. -/
def writes : List Out → List Char
  | [] => []
  | Out.write s :: rest => s ++ writes rest
  | Out.flush :: rest => writes rest

/-! Helper lemmas. -/

/-- Substring containment agrees with the infix relation on lists. -/
theorem containsB_iff (h n : List Char) : containsB h n = true ↔ n <:+: h := by
  induction h with
  | nil => simp [containsB, List.isEmpty_iff, List.infix_nil]
  | cons c t ih =>
    simp [containsB, List.isPrefixOf_iff_prefix, List.infix_cons_iff, ih]

/-- Pointwise equal predicates give equal any-scans. -/
theorem any_ext {α : Type} (l : List α) (f g : α → Bool)
    (h : ∀ a ∈ l, f a = g a) : l.any f = l.any g := by
  induction l with
  | nil => rfl
  | cons a t ih =>
    simp only [List.any_cons, h a (List.mem_cons_self _ _),
      ih (fun x hx => h x (List.mem_cons_of_mem _ hx))]

/-- Pointwise equal matchers give equal ordered category scans. -/
theorem firstCategory_ext (m₁ m₂ : List Char → List Char → Bool) :
    ∀ (table : List (List Char × List (List Char))),
    (∀ e ∈ table, ∀ p ∈ e.2, ∀ name, m₁ p name = m₂ p name) →
    ∀ name, firstCategory m₁ table name = firstCategory m₂ table name := by
  intro table
  induction table with
  | nil => intro _ _; rfl
  | cons hd tl ih =>
    intro h name
    obtain ⟨cat, pats⟩ := hd
    have hany : pats.any (fun p => m₁ p name) = pats.any (fun p => m₂ p name) :=
      any_ext pats _ _ (fun p hp => h (cat, pats) (List.mem_cons_self _ _) p hp name)
    have htl := ih (fun e he p hp nm => h e (List.mem_cons_of_mem _ he) p hp nm) name
    simp only [firstCategory, hany, htl]

/-- An occurrence of n in a ++ b lies in b whenever n is longer than a and
no nonempty suffix of a begins n. -/
theorem infix_append_right {n b : List Char} :
    ∀ a : List Char, n <:+: a ++ b → a.length < n.length →
    (∀ t, t <:+ a → t ≠ [] → ¬ t <+: n) → n <:+: b := by
  intro a
  induction a with
  | nil => intro h _ _; simpa using h
  | cons c a' ih =>
    intro h hlen htails
    rw [List.cons_append] at h
    rcases List.infix_cons_iff.mp h with hpre | hinf
    · exfalso
      have h1 : (c :: a') <+: c :: (a' ++ b) := by
        rw [← List.cons_append]; exact List.prefix_append _ _
      have h2 : (c :: a') <+: n :=
        List.prefix_of_prefix_length_le h1 hpre (Nat.le_of_lt hlen)
      exact htails (c :: a') (List.suffix_refl _) (List.cons_ne_nil _ _) h2
    · refine ih hinf (Nat.lt_of_succ_lt ?_) (fun t ht htne => htails t
        (List.IsSuffix.trans ht (List.suffix_cons c a')) htne)
      simpa using hlen

/-- Substring occurrences survive removal of a leading block that is
shorter than the needle and none of whose nonempty suffixes begins the
needle. -/
theorem containsB_of_append (p rest n : List Char)
    (hlen : p.length < n.length)
    (htails : ∀ t ∈ p.tails, t ≠ [] → t.isPrefixOf n = false)
    (h : containsB (p ++ rest) n = true) : containsB rest n = true := by
  rw [containsB_iff] at h ⊢
  refine infix_append_right p h hlen ?_
  intro t hts htne hpre
  have hfalse := htails t ((List.mem_tails _ _).mpr hts) htne
  have htrue : t.isPrefixOf n = true := List.isPrefixOf_iff_prefix.mpr hpre
  rw [hfalse] at htrue
  exact Bool.noConfusion htrue

/-- Stage 1 either leaves the name alone or removes one prefix from the
strip table. -/
theorem stripOne_cases : ∀ (ps : List (List Char)) (x : List Char),
    stripOne ps x = x ∨
      ∃ p ∈ ps, p.isPrefixOf x = true ∧ stripOne ps x = x.drop p.length := by
  intro ps
  induction ps with
  | nil => intro x; left; rfl
  | cons p rest ih =>
    intro x
    by_cases h : p.isPrefixOf x = true
    · right
      exact ⟨p, List.mem_cons_self _ _, h, by simp [stripOne, h]⟩
    · have h' : p.isPrefixOf x = false := by
        cases hb : p.isPrefixOf x with
        | false => rfl
        | true => exact absurd hb h
      rcases ih x with h1 | ⟨q, hq, hqp, he⟩
      · left; simp [stripOne, h', h1]
      · right
        exact ⟨q, List.mem_cons_of_mem _ hq, hqp, by simp [stripOne, h', he]⟩

/-- Stage 1 returns a suffix of its input. -/
theorem stripOne_suffix (ps : List (List Char)) (x : List Char) :
    stripOne ps x <:+ x := by
  rcases stripOne_cases ps x with h | ⟨p, _, _, h⟩
  · rw [h]
  · rw [h]; exact List.drop_suffix _ _

/-! Claim theorems. -/

/-- C1: for every task name and the fixed category table, _categorize_task
returns exactly what the spec's ordered scan returns: the category of the
earliest-declared pattern (categories in declared order, patterns in
declared order within each) whose text is a case-insensitive substring of
the task name, and none when no pattern matches.  specCategorize is that
scan written from the spec's words; the wildcard disjunct in the code never
fires because no pattern in the fixed table starts with ".*". -/
theorem categorize_is_ordered_substring_scan (name : List Char) :
    categorize_task name = specCategorize name := by
  have hW : ∀ e ∈ task_categories, ∀ p ∈ e.2, (str ".*").isPrefixOf p = false := by
    decide
  unfold categorize_task specCategorize
  refine firstCategory_ext _ _ task_categories ?_ name
  intro e he p hp nm
  simp [codeMatch, hW e he p hp]

/-- C4 counterexample: the task name "Task: Change.*shell step" is
categorized as Final Setup by the code because the literal pattern text
"change.*shell" (markers included) occurs in it, yet the pattern's inner,
marker-free text "Changeshell" is not a case-insensitive substring of the
task name, so the claimed "matches exactly when the marker-free text is a
substring" biconditional fails at this input. -/
theorem wildcard_pattern_counterexample :
    categorize_task (str "Task: Change.*shell step") = some (str "Final Setup") ∧
    containsB (lowerStr (str "Task: Change.*shell step"))
      (lowerStr (stripMarkers (str "Change.*shell"))) = false := by decide

/-- C4 (amended): the code's wildcard rewrite applies only to patterns that
both start and end with ".*".  The table's 'Change.*shell' entry has its
marker in the middle, so it matches a task name exactly when its literal
text, markers included, is a case-insensitive substring of the name. -/
theorem change_shell_matches_literally (name : List Char) :
    codeMatch (str "Change.*shell") name =
      containsB (lowerStr name) (lowerStr (str "Change.*shell")) := by
  have h : (str ".*").isPrefixOf (str "Change.*shell") = false := by decide
  simp [codeMatch, h]

/-- C6 counterexample: an input containing both trigger substrings is mapped
to "Base packages (25)", not "Global packages (5)", because the base-system
override is tested first, so the claimed "regardless of any other text"
fails at this input. -/
theorem simplify_global_counterexample :
    containsB (str "base system packages global npm packages")
      (str "global npm packages") = true ∧
    simplify_task_name (str "base system packages global npm packages") =
      str "Base packages (25)" ∧
    str "Base packages (25)" ≠ str "Global packages (5)" := by decide

/-- C6 (amended): for every input that contains "global npm packages" and
does not contain the higher-priority trigger "base system packages",
_simplify_task_name returns exactly "Global packages (5)", regardless of
any other surrounding text. -/
theorem simplify_global_npm (x : List Char)
    (hg : containsB x (str "global npm packages") = true)
    (hb : containsB x (str "base system packages") = false) :
    simplify_task_name x = str "Global packages (5)" := by
  have hsafe : ∀ p ∈ simplifications,
      p.length < (str "global npm packages").length ∧
      ∀ t ∈ p.tails, t ≠ [] → t.isPrefixOf (str "global npm packages") = false := by
    decide
  have hsuf : stripOne simplifications x <:+ x := stripOne_suffix _ _
  have hg' : containsB (stripOne simplifications x) (str "global npm packages") = true := by
    rcases stripOne_cases simplifications x with he | ⟨p, hp, hpre, he⟩
    · rw [he]; exact hg
    · rw [he]
      obtain ⟨hl, ht⟩ := hsafe p hp
      refine containsB_of_append p (x.drop p.length) _ hl ht ?_
      have hx : p ++ x.drop p.length = x :=
        List.prefix_iff_eq_append.mp (List.isPrefixOf_iff_prefix.mp hpre)
      rw [hx]; exact hg
  have hb' : containsB (stripOne simplifications x) (str "base system packages") = false := by
    cases hc : containsB (stripOne simplifications x) (str "base system packages") with
    | false => rfl
    | true =>
      have : containsB x (str "base system packages") = true :=
        (containsB_iff _ _).mpr
          (List.IsInfix.trans ((containsB_iff _ _).mp hc) hsuf.isInfix)
      rw [this] at hb
      exact Bool.noConfusion hb
  simp [simplify_task_name, hb', hg']

/-- C6 (amended) witness at a concrete input. -/
theorem simplify_global_npm_witness :
    simplify_task_name (str "Install every global npm packages bundle") =
      str "Global packages (5)" :=
  simplify_global_npm _ (by decide) (by decide)

/-- C8: the number of fill dots for a display name of length L against
target width W is exactly max(W - L, 0) over the integers, and in
particular it is 0 (never negative) when L is at least W.  dotFill is the
fill used by both runnerOkOut (widths 35 and 50) and runnerFailedOut
(width 50). -/
theorem dotFill_length (s : List Char) (w : Nat) :
    ((dotFill w s).length : Int) = max ((w : Int) - (s.length : Int)) 0 ∧
    (w ≤ s.length → (dotFill w s).length = 0) := by
  constructor
  · simp only [dotFill, List.length_replicate]
    omega
  · intro h
    simp only [dotFill, List.length_replicate]
    omega

/-- C8 witness: a 60-character name against width 50 gets exactly zero
dots. -/
theorem dotFill_length_witness :
    (dotFill 50 (List.replicate 60 'a')).length = 0 :=
  (dotFill_length (List.replicate 60 'a') 50).2 (by simp)

/-- C10: _simplify_task_name applies at most one override label per call,
testing the triggers against the prefix-stripped working name, with
"base system packages" taking precedence over "global npm packages", which
takes precedence over "additional APT packages"; when no trigger is
present in the stripped name the stripped name itself is returned. -/
theorem simplify_override_priority (x : List Char) :
    (containsB (stripOne simplifications x) (str "base system packages") = true →
      simplify_task_name x = str "Base packages (25)") ∧
    (containsB (stripOne simplifications x) (str "base system packages") = false →
     containsB (stripOne simplifications x) (str "global npm packages") = true →
      simplify_task_name x = str "Global packages (5)") ∧
    (containsB (stripOne simplifications x) (str "base system packages") = false →
     containsB (stripOne simplifications x) (str "global npm packages") = false →
     containsB (stripOne simplifications x) (str "additional APT packages") = true →
      simplify_task_name x = str "Additional packages") ∧
    (containsB (stripOne simplifications x) (str "base system packages") = false →
     containsB (stripOne simplifications x) (str "global npm packages") = false →
     containsB (stripOne simplifications x) (str "additional APT packages") = false →
      simplify_task_name x = stripOne simplifications x) := by
  refine ⟨fun h1 => ?_, fun h1 h2 => ?_, fun h1 h2 h3 => ?_, fun h1 h2 h3 => ?_⟩ <;>
    simp [simplify_task_name, h1] <;> simp_all

/-- C10 witness: on "Set base system packages and global npm packages" the
stripped name contains two triggers and the base-system label wins. -/
theorem simplify_override_priority_witness :
    simplify_task_name (str "Set base system packages and global npm packages") =
      str "Base packages (25)" :=
  (simplify_override_priority
    (str "Set base system packages and global npm packages")).1 (by decide)

/-- C3: v2_runner_on_failed emits no output exactly when the stored
current_task is falsy (absent or empty) or ignore_errors is true;
otherwise it emits the cursor return, the top-level prefix, the full task
name, the dot-fill to width 50, the failure glyph and a newline, followed
by the indented error line whose message defaults to "Unknown error" when
the result carries no msg field. -/
theorem runner_failed_output (ct : Option (List Char)) (msg : Option (List Char))
    (ig : Bool) :
    (runnerFailedOut ct msg ig = [] ↔ (truthy ct = false ∨ ig = true)) ∧
    (∀ name, ct = some name → name ≠ [] → ig = false →
      runnerFailedOut ct msg ig =
        [Out.write (str "\r   ├─ " ++ name ++ str " " ++ dotFill 50 name ++ str " ✗\n"),
         Out.write (str "   │  └─ Error: " ++ msg.getD (str "Unknown error") ++ str "\n"),
         Out.flush]) := by
  constructor
  · cases ct with
    | none => simp [runnerFailedOut, truthy]
    | some name => cases name <;> cases ig <;> simp [runnerFailedOut, truthy]
  · intro name hct hne hig
    subst hct
    subst hig
    cases name with
    | nil => exact absurd rfl hne
    | cons a t => simp [runnerFailedOut]

/-- C3 witness: a concrete failure with no msg field and ignore_errors
false produces the two-line block with the default message. -/
theorem runner_failed_output_witness :
    runnerFailedOut (some (str "Configure firewall")) none false =
      [Out.write (str "\r   ├─ " ++ str "Configure firewall" ++ str " " ++
         dotFill 50 (str "Configure firewall") ++ str " ✗\n"),
       Out.write (str "   │  └─ Error: " ++
         Option.getD none (str "Unknown error") ++ str "\n"),
       Out.flush] :=
  (runner_failed_output (some (str "Configure firewall")) none false).2
    (str "Configure firewall") rfl (by decide) rfl

/-- C5 counterexample: with the engine's fact-gathering step as the current
task, v2_runner_on_failed with ignore_errors false does emit output, so the
claim that all handlers write nothing for a fact-gathering task fails. -/
theorem gathering_facts_failed_emits :
    runnerFailedOut (some (str "Gathering Facts")) none false ≠ [] := by decide

/-- C5 (amended): for a task whose name is empty or starts with "Gathering
Facts", v2_playbook_on_task_start and v2_runner_on_ok write nothing, and
v2_runner_on_failed writes nothing when the name is empty or ignore_errors
is true; but for a fact-gathering current task with ignore_errors false,
v2_runner_on_failed does emit the two-line failure block. -/
theorem internal_task_suppression (name : List Char) (changed : Bool)
    (msg : Option (List Char)) (ig : Bool)
    (h : name = [] ∨ (str "Gathering Facts").isPrefixOf name = true) :
    taskStartOut name = [] ∧
    runnerOkOut (some name) changed = [] ∧
    (name = [] → runnerFailedOut (some name) msg ig = []) ∧
    (ig = true → runnerFailedOut (some name) msg ig = []) ∧
    ((str "Gathering Facts").isPrefixOf name = true → ig = false →
      runnerFailedOut (some name) msg ig =
        [Out.write (str "\r   ├─ " ++ name ++ str " " ++ dotFill 50 name ++ str " ✗\n"),
         Out.write (str "   │  └─ Error: " ++ msg.getD (str "Unknown error") ++ str "\n"),
         Out.flush]) := by
  refine ⟨?_, ?_, ?_, ?_, ?_⟩
  · rcases h with h | h
    · subst h; rfl
    · simp [taskStartOut, h]
  · rcases h with h | h
    · subst h; rfl
    · cases name with
      | nil => rfl
      | cons a t =>
        rw [runnerOkOut]
        simp [h]
  · intro h'; subst h'; rfl
  · intro h'; subst h'
    cases name <;> simp [runnerFailedOut]
  · intro hgf hig
    subst hig
    cases name with
    | nil =>
      have : (str "Gathering Facts").isPrefixOf ([] : List Char) = false := by decide
      rw [this] at hgf
      exact Bool.noConfusion hgf
    | cons a t => simp [runnerFailedOut]

/-- C5 (amended) witness: the fact-gathering failure block at a concrete
input. -/
theorem internal_task_suppression_witness :
    runnerFailedOut (some (str "Gathering Facts")) none false =
      [Out.write (str "\r   ├─ " ++ str "Gathering Facts" ++ str " " ++
         dotFill 50 (str "Gathering Facts") ++ str " ✗\n"),
       Out.write (str "   │  └─ Error: " ++
         Option.getD none (str "Unknown error") ++ str "\n"),
       Out.flush] :=
  (internal_task_suppression (str "Gathering Facts") false none false
    (Or.inr (by decide))).2.2.2.2 (by decide) rfl

/-- C7 counterexample: for the categorized task "Install NVM", the condensed
success line written by v2_runner_on_ok is not the claimed
prefix-name-dots-glyph-newline string: it carries a leading carriage
return, so the "no cursor-return" part of the claim fails. -/
theorem categorized_ok_counterexample :
    runnerOkOut (some (str "Install NVM")) false ≠
      [Out.write (str "   │  ├─ " ++ str "NVM" ++ str " " ++
        dotFill 35 (str "NVM") ++ str " ✓\n"), Out.flush] ∧
    runnerOkOut (some (str "Install NVM")) false =
      [Out.write (str "\r" ++ (str "   │  ├─ " ++ str "NVM" ++ str " " ++
        dotFill 35 (str "NVM") ++ str " ✓\n")), Out.flush] := by decide

/-- C7 (amended): for every categorized task, v2_playbook_on_task_start
renders nothing, and v2_runner_on_ok renders exactly one flushed write of a
cursor return followed by the condensed line: the two-level tree prefix,
the simplified name, a space, the dot-fill to width 35, a space, the
success glyph and a newline — no placeholder having been written. -/
theorem categorized_ok_line (name : List Char) (changed : Bool) (c : List Char)
    (hgf : (str "Gathering Facts").isPrefixOf name = false)
    (hcat : categorize_task name = some c) :
    taskStartOut name = [] ∧
    runnerOkOut (some name) changed =
      [Out.write (str "\r   │  ├─ " ++ simplify_task_name name ++ str " " ++
        dotFill 35 (simplify_task_name name) ++ str " ✓\n"), Out.flush] := by
  have hne : name ≠ [] := by
    intro h
    subst h
    have : categorize_task ([] : List Char) = none := by decide
    rw [this] at hcat
    exact Option.noConfusion hcat
  cases name with
  | nil => exact absurd rfl hne
  | cons a t =>
    constructor
    · simp [taskStartOut, hgf, hcat]
    · rw [runnerOkOut]
      simp [hgf, hcat]

/-- C7 (amended) witness: the condensed line for "Install NVM". -/
theorem categorized_ok_line_witness :
    taskStartOut (str "Install NVM") = [] ∧
    runnerOkOut (some (str "Install NVM")) true =
      [Out.write (str "\r   │  ├─ " ++ simplify_task_name (str "Install NVM") ++
        str " " ++ dotFill 35 (simplify_task_name (str "Install NVM")) ++
        str " ✓\n"), Out.flush] :=
  categorized_ok_line (str "Install NVM") true (str "Development Tools")
    (by decide) (by decide)

/-- Recognizer for task-start events. -/
def isTaskStart : Event → Bool
  | Event.taskStart _ _ => true
  | _ => false

/-- Folding the state transition from an arbitrary start state tracks the
most recent task-start name of the event sequence. -/
theorem runFrom_current_task : ∀ (evs : List Event) (s : RunState),
    (evs.foldl (fun s e => (handle s e).1) s).current_task =
      match lastTaskStartName evs with
      | some n => some n
      | none => s.current_task := by
  intro evs
  induction evs with
  | nil => intro s; rfl
  | cons e rest ih =>
    intro s
    rw [List.foldl_cons, ih]
    cases e <;> simp only [handle, lastTaskStartName] <;>
      cases lastTaskStartName rest <;> rfl

/-- C9: current_task always equals the name from the most recent task-start
event (and is unset before the first one): after any event sequence from
__init__ it is exactly lastTaskStartName; the task-start handler always
overwrites it; every other handler leaves it unchanged. -/
theorem current_task_invariant :
    initState.current_task = none ∧
    (∀ evs : List Event, (runEvents evs).current_task = lastTaskStartName evs) ∧
    (∀ (s : RunState) (n : List Char) (b : Bool),
      ((handle s (Event.taskStart n b)).1).current_task = some n) ∧
    (∀ (s : RunState) (e : Event), isTaskStart e = false →
      ((handle s e).1).current_task = s.current_task) := by
  refine ⟨rfl, ?_, fun s n b => rfl, ?_⟩
  · intro evs
    rw [runEvents, runFrom_current_task evs initState]
    cases lastTaskStartName evs <;> rfl
  · intro s e he
    cases e <;> first | rfl | exact Bool.noConfusion he

/-- C9 witness: a concrete sequence — play start, a task start, a second
task start, then a success — leaves the second task's name stored, and the
stats handler leaves the field unchanged. -/
theorem current_task_invariant_witness :
    (runEvents [Event.playStart (str "Provision"),
      Event.taskStart (str "Set hostname") false,
      Event.taskStart (str "Install NVM") false,
      Event.runnerOk true]).current_task = some (str "Install NVM") ∧
    ((handle initState Event.stats).1).current_task = initState.current_task :=
  ⟨(current_task_invariant.2.1 [Event.playStart (str "Provision"),
      Event.taskStart (str "Set hostname") false,
      Event.taskStart (str "Install NVM") false,
      Event.runnerOk true]).trans (by decide),
   current_task_invariant.2.2.2 initState Event.stats rfl⟩

/-- Writing a run of printable characters appends them to the left of the
cursor and consumes as many characters to the right. -/
theorem foldl_procChar_plain (s : List Char) :
    ∀ (d : List (List Char)) (l r : List Char),
    (∀ c ∈ s, c ≠ '\n' ∧ c ≠ '\r') →
    List.foldl procChar ⟨d, l, r⟩ s = ⟨d, l ++ s, r.drop s.length⟩ := by
  induction s with
  | nil => intro d l r _; simp
  | cons c cs ih =>
    intro d l r h
    have hc := h c (List.mem_cons_self _ _)
    rw [List.foldl_cons]
    have hstep : procChar ⟨d, l, r⟩ c = ⟨d, l ++ [c], r.drop 1⟩ := by
      simp [procChar, hc.1, hc.2]
    rw [hstep, ih d (l ++ [c]) (r.drop 1) (fun x hx => h x (List.mem_cons_of_mem _ hx))]
    simp [List.drop_drop, Nat.add_comm]

/-- Rendering a plain placeholder, a carriage return, a plain full line
extending the placeholder, and a newline finishes exactly the full line. -/
theorem render_overwrite (P F : List Char)
    (hP : ∀ c ∈ P, c ≠ '\n' ∧ c ≠ '\r')
    (hF : ∀ c ∈ F, c ≠ '\n' ∧ c ≠ '\r')
    (hlen : P.length ≤ F.length) :
    render (P ++ ('\r' :: (F ++ ['\n']))) = ⟨[F], [], []⟩ := by
  unfold render
  rw [List.foldl_append, foldl_procChar_plain P [] [] [] hP]
  simp only [List.nil_append, List.drop_nil]
  rw [List.foldl_cons]
  have h1 : procChar ⟨[], P, []⟩ '\r' = ⟨[], [], P⟩ := by simp [procChar]
  rw [h1, List.foldl_append, foldl_procChar_plain F [] [] P hF]
  have h2 : P.drop F.length = [] := List.drop_eq_nil_of_le hlen
  rw [h2]
  simp [procChar]

/-- C2: for every non-empty, non-fact-gathering task name that the
categorizer maps to none, task-start writes exactly the flushed no-newline
placeholder "   ├─ " + name + " ", and the matching runner-ok (for either
value of the changed flag) writes exactly one flushed line consisting of a
carriage return, "   ├─ " + name + " ", max(50 - len(name), 0) dots (the
integer count computed by dotFill 50), " ✓" and a newline; rendering the
two writes on the terminal leaves exactly one finished line (for names
free of newline and carriage-return characters). -/
theorem uncategorized_task_line (name : List Char) (changed : Bool)
    (hne : name ≠ [])
    (hgf : (str "Gathering Facts").isPrefixOf name = false)
    (hcat : categorize_task name = none) :
    taskStartOut name = [Out.write (str "   ├─ " ++ name ++ str " "), Out.flush] ∧
    runnerOkOut (some name) changed =
      [Out.write (str "\r   ├─ " ++ name ++ str " " ++ dotFill 50 name ++ str " ✓\n"),
       Out.flush] ∧
    ((∀ c ∈ name, c ≠ '\n' ∧ c ≠ '\r') →
      render (writes (taskStartOut name ++ runnerOkOut (some name) changed)) =
        ⟨[str "   ├─ " ++ name ++ str " " ++ dotFill 50 name ++ str " ✓"], [], []⟩) := by
  obtain ⟨a, t, rfl⟩ : ∃ a t, name = a :: t := by
    cases name with
    | nil => exact absurd rfl hne
    | cons a t => exact ⟨a, t, rfl⟩
  have h1 : taskStartOut (a :: t) =
      [Out.write (str "   ├─ " ++ (a :: t) ++ str " "), Out.flush] := by
    simp [taskStartOut, hgf, hcat]
  have h2 : runnerOkOut (some (a :: t)) changed =
      [Out.write (str "\r   ├─ " ++ (a :: t) ++ str " " ++ dotFill 50 (a :: t) ++
        str " ✓\n"), Out.flush] := by
    rw [runnerOkOut]
    simp [hgf, hcat]
  refine ⟨h1, h2, ?_⟩
  intro hplain
  rw [h1, h2]
  have hw : writes ([Out.write (str "   ├─ " ++ (a :: t) ++ str " "), Out.flush] ++
      [Out.write (str "\r   ├─ " ++ (a :: t) ++ str " " ++ dotFill 50 (a :: t) ++
        str " ✓\n"), Out.flush]) =
      (str "   ├─ " ++ (a :: t) ++ str " ") ++
      (str "\r   ├─ " ++ (a :: t) ++ str " " ++ dotFill 50 (a :: t) ++ str " ✓\n") := by
    simp [writes]
  rw [hw]
  have e1 : str "\r   ├─ " = '\r' :: str "   ├─ " := by decide
  have e2 : str " ✓\n" = str " ✓" ++ ['\n'] := by decide
  have hQ : str "\r   ├─ " ++ (a :: t) ++ str " " ++ dotFill 50 (a :: t) ++ str " ✓\n" =
      '\r' :: ((str "   ├─ " ++ (a :: t) ++ str " " ++ dotFill 50 (a :: t) ++ str " ✓")
        ++ ['\n']) := by
    rw [e1, e2]
    simp [List.append_assoc]
  rw [hQ]
  have hpre : ∀ c ∈ str "   ├─ ", c ≠ '\n' ∧ c ≠ '\r' := by decide
  have hsp : ∀ c ∈ str " ", c ≠ '\n' ∧ c ≠ '\r' := by decide
  have hck : ∀ c ∈ str " ✓", c ≠ '\n' ∧ c ≠ '\r' := by decide
  have hP : ∀ c ∈ str "   ├─ " ++ (a :: t) ++ str " ", c ≠ '\n' ∧ c ≠ '\r' := by
    intro c hc
    rcases List.mem_append.mp hc with hc' | hc'
    · rcases List.mem_append.mp hc' with hc'' | hc''
      · exact hpre c hc''
      · exact hplain c hc''
    · exact hsp c hc'
  have hF : ∀ c ∈ str "   ├─ " ++ (a :: t) ++ str " " ++ dotFill 50 (a :: t) ++ str " ✓",
      c ≠ '\n' ∧ c ≠ '\r' := by
    intro c hc
    rcases List.mem_append.mp hc with hc' | hc'
    · rcases List.mem_append.mp hc' with hc'' | hc''
      · exact hP c hc''
      · have : c = '.' := List.eq_of_mem_replicate hc''
        subst this
        exact ⟨by decide, by decide⟩
    · exact hck c hc'
  have hlen : (str "   ├─ " ++ (a :: t) ++ str " ").length ≤
      (str "   ├─ " ++ (a :: t) ++ str " " ++ dotFill 50 (a :: t) ++ str " ✓").length := by
    simp [List.length_append]
  exact render_overwrite _ _ hP hF hlen

/-- C2 witness: the 12-character uncategorized name "abcdefghijkl" gets the
placeholder, then an overwriting line with exactly 38 dots, and one
finished terminal line. -/
theorem uncategorized_task_line_witness :
    taskStartOut (str "abcdefghijkl") =
      [Out.write (str "   ├─ " ++ str "abcdefghijkl" ++ str " "), Out.flush] ∧
    runnerOkOut (some (str "abcdefghijkl")) true =
      [Out.write (str "\r   ├─ " ++ str "abcdefghijkl" ++ str " " ++
        dotFill 50 (str "abcdefghijkl") ++ str " ✓\n"), Out.flush] ∧
    render (writes (taskStartOut (str "abcdefghijkl") ++
        runnerOkOut (some (str "abcdefghijkl")) true)) =
      ⟨[str "   ├─ " ++ str "abcdefghijkl" ++ str " " ++
        dotFill 50 (str "abcdefghijkl") ++ str " ✓"], [], []⟩ ∧
    (dotFill 50 (str "abcdefghijkl")).length = 38 :=
  have h := uncategorized_task_line (str "abcdefghijkl") true (by decide) (by decide)
    (by decide)
  ⟨h.1, h.2.1, h.2.2 (by decide), by decide⟩
